import Mathlib

/-!
Shallow embedding of `port-finance/solana-maths` (`src/decimal.rs`,
`src/error.rs`) and proofs about it.

The `Decimal` type wraps a 192-bit unsigned integer (`U192`, built by the
`uint` crate's `construct_uint!`).  We embed `U192` values as `Nat` together
with explicit bounds `< 2 ^ 192` where the width matters; the crate's
`checked_add` / `checked_sub` / `checked_mul` / `checked_div` become
`Option Nat` functions with the same success conditions, and its plain `*`
(which panics on overflow) becomes an `Option` result where `none` models
the panic.  Rust's `Result<_, ProgramError>` is embedded as
`Except MathError _` (the library converts a `MathError` into
`ProgramError::Custom` losslessly, so no information is dropped).
-/

/-- Modelled from the spec: the scale constant `WAD` lives in `common.rs`,
which is not among the provided sources; the spec fixes it as the power of
ten `10^18`. -/
def WAD : Nat := 10 ^ 18

/-- Modelled from the spec: `HALF_WAD = W / 2` (from `common.rs`, absent). -/
def HALF_WAD : Nat := WAD / 2

/-- Modelled from the spec: `PERCENT_SCALER = W / 100` (from `common.rs`,
absent). -/
def PERCENT_SCALER : Nat := WAD / 100

/-- Modelled from the spec: `BIPS_SCALER = W / 10000` (from `common.rs`,
absent). -/
def BIPS_SCALER : Nat := WAD / 10000

/-- Modelled from the spec: `SCALE` is the digit count of `W`, i.e. 18
(from `common.rs`, absent; `decimal.rs` tests `U192::exp10(SCALE) == wad`). -/
def SCALE : Nat := 18

/-- `MathError` from `src/error.rs`: the closed set of failure kinds. -/
inductive MathError where
  | AddOverflow
  | SubUnderflow
  | MulOverflow
  | DividedByZero
  | UnableToRoundU64
  | UnableToRoundU128
deriving DecidableEq, Repr

namespace U192

/-- Number of values of the 192-bit word: `2 ^ 192`. -/
def size : Nat := 2 ^ 192

/-- `U192::checked_add`: `some (a + b)` unless the sum overflows 192 bits. -/
def checkedAdd (a b : Nat) : Option Nat :=
  if a + b < size then some (a + b) else none

/-- `U192::checked_sub`: `some (a - b)` unless it would borrow below zero. -/
def checkedSub (a b : Nat) : Option Nat :=
  if b ≤ a then some (a - b) else none

/-- `U192::checked_mul`: `some (a * b)` unless the product overflows 192 bits. -/
def checkedMul (a b : Nat) : Option Nat :=
  if a * b < size then some (a * b) else none

/-- `U192::checked_div`: `none` exactly when the divisor is zero. -/
def checkedDiv (a b : Nat) : Option Nat :=
  if b = 0 then none else some (a / b)

end U192

/-- `Decimal` from `src/decimal.rs`: wraps one `U192` raw scaled value. -/
structure Decimal where
  raw : Nat
deriving DecidableEq, Repr

namespace Decimal

/-- `Decimal::wad()`. -/
def wad : Nat := WAD

/-- `Decimal::half_wad()`. -/
def half_wad : Nat := HALF_WAD

/-- `Decimal::zero()`. -/
def zero : Decimal := ⟨0⟩

/-- `Decimal::one()`. -/
def one : Decimal := ⟨wad⟩

/-- `Decimal::from_percent(percent: u8)`: `percent as u64 * PERCENT_SCALER`
is a native `u64` multiply (it cannot overflow for `percent ≤ 255`, hence
the `% 2^64` is vacuous there). -/
def from_percent (percent : Nat) : Decimal := ⟨percent * PERCENT_SCALER % 2 ^ 64⟩

/-- `Decimal::from_scaled_val(scaled_val: u128)`: zero-extends the raw
value into the 192-bit word.  Callers supply `scaled_val < 2^128` (the
`u128` range). -/
def from_scaled_val (scaled_val : Nat) : Decimal := ⟨scaled_val⟩

/-- `Decimal::to_scaled_val()`: the raw value if it fits in a `u128`. -/
def to_scaled_val (d : Decimal) : Except MathError Nat :=
  if d.raw < 2 ^ 128 then .ok d.raw else .error .UnableToRoundU128

/-- `From<u64> for Decimal` / `From<u128> for Decimal`:
`Self(Self::wad() * U192::from(val))` — the `uint` crate's plain `*` panics
on overflow, modelled by `none`. -/
def from_u64 (val : Nat) : Option Decimal :=
  if wad * val < U192.size then some ⟨wad * val⟩ else none

/-- `From<u128> for Decimal`, same unchecked widening multiply as
`from_u64` but over the `u128` input range. -/
def from_u128 (val : Nat) : Option Decimal :=
  if wad * val < U192.size then some ⟨wad * val⟩ else none

/-- `Decimal::try_round_u64`. -/
def try_round_u64 (d : Decimal) : Except MathError Nat :=
  match U192.checkedAdd half_wad d.raw with
  | none => .error .AddOverflow
  | some sum =>
    match U192.checkedDiv sum wad with
    | none => .error .DividedByZero
    | some q => if q < 2 ^ 64 then .ok q else .error .UnableToRoundU64

/-- `Decimal::try_ceil_u64`. -/
def try_ceil_u64 (d : Decimal) : Except MathError Nat :=
  match U192.checkedSub wad 1 with
  | none => .error .SubUnderflow
  | some w1 =>
    match U192.checkedAdd w1 d.raw with
    | none => .error .AddOverflow
    | some sum =>
      match U192.checkedDiv sum wad with
      | none => .error .DividedByZero
      | some q => if q < 2 ^ 64 then .ok q else .error .UnableToRoundU64

/-- `Decimal::try_floor_u64`. -/
def try_floor_u64 (d : Decimal) : Except MathError Nat :=
  match U192.checkedDiv d.raw wad with
  | none => .error .DividedByZero
  | some q => if q < 2 ^ 64 then .ok q else .error .UnableToRoundU64

/-- `TryAdd for Decimal`. -/
def try_add (d rhs : Decimal) : Except MathError Decimal :=
  match U192.checkedAdd d.raw rhs.raw with
  | none => .error .AddOverflow
  | some v => .ok ⟨v⟩

/-- `TrySub for Decimal`.  Note: the source maps the `checked_sub` failure
to `MathError::MulOverflow` (decimal.rs line 147), not `SubUnderflow`. -/
def try_sub (d rhs : Decimal) : Except MathError Decimal :=
  match U192.checkedSub d.raw rhs.raw with
  | none => .error .MulOverflow
  | some v => .ok ⟨v⟩

/-- `TryDiv<u64> for Decimal`. -/
def try_div_u64 (d : Decimal) (rhs : Nat) : Except MathError Decimal :=
  match U192.checkedDiv d.raw rhs with
  | none => .error .DividedByZero
  | some v => .ok ⟨v⟩

/-- `TryDiv<Decimal> for Decimal`: multiply by `wad` first (can overflow,
reported as `MulOverflow`), then divide by the rhs raw value. -/
def try_div_decimal (d rhs : Decimal) : Except MathError Decimal :=
  match U192.checkedMul d.raw wad with
  | none => .error .MulOverflow
  | some scaled =>
    match U192.checkedDiv scaled rhs.raw with
    | none => .error .DividedByZero
    | some v => .ok ⟨v⟩

/-- `TryMul<u64> for Decimal`. -/
def try_mul_u64 (d : Decimal) (rhs : Nat) : Except MathError Decimal :=
  match U192.checkedMul d.raw rhs with
  | none => .error .MulOverflow
  | some v => .ok ⟨v⟩

/-- `TryMul<Decimal> for Decimal`: raw product, then divide once by `wad`. -/
def try_mul_decimal (d rhs : Decimal) : Except MathError Decimal :=
  match U192.checkedMul d.raw rhs.raw with
  | none => .error .MulOverflow
  | some prod =>
    match U192.checkedDiv prod wad with
    | none => .error .DividedByZero
    | some v => .ok ⟨v⟩

end Decimal

/-- `u128::to_le_bytes` generalised: the `k` little-endian base-256 bytes
of `n` (byte 0 is least significant). -/
def leBytes : Nat → Nat → List Nat
  | 0, _ => []
  | k + 1, n => n % 256 :: leBytes k (n / 256)

/-- `u128::from_le_bytes` generalised: reassemble a natural number from
little-endian base-256 bytes. -/
def leDecode : List Nat → Nat
  | [] => 0
  | b :: bs => b + 256 * leDecode bs

namespace Decimal

/-- `Pack::pack_into_slice` for `Decimal`: writes
`to_scaled_val().expect(..).to_le_bytes()` into the 16-byte destination;
`none` models the `expect` panic when the raw value exceeds 128 bits. -/
def pack_into_slice (d : Decimal) : Option (List Nat) :=
  match d.to_scaled_val with
  | .ok r => some (leBytes 16 r)
  | .error _ => none

/-- `Pack::unpack_from_slice` for `Decimal`: reads the first 16 bytes
(`array_ref![src, 0, 16]`) as a little-endian `u128` and lifts it. -/
def unpack_from_slice (src : List Nat) : Except MathError Decimal :=
  .ok (from_scaled_val (leDecode (src.take 16)))

/-- `fmt::Display for Decimal`, over the character list of the output
string: `self.0.to_string()` is `Nat.repr` of the raw value; if its length
is at most `SCALE` the code prepends zero padding and `"0."`, otherwise it
inserts `'.'` at `len - SCALE`. -/
def display_chars (d : Decimal) : List Char :=
  if (Nat.repr d.raw).data.length ≤ SCALE then
    '0' :: '.' :: (List.replicate (SCALE - (Nat.repr d.raw).data.length) '0' ++
      (Nat.repr d.raw).data)
  else
    (Nat.repr d.raw).data.take ((Nat.repr d.raw).data.length - SCALE) ++
      '.' :: (Nat.repr d.raw).data.drop ((Nat.repr d.raw).data.length - SCALE)

/-- `fmt::Display for Decimal`, as a `String`. -/
def display (d : Decimal) : String := ⟨d.display_chars⟩

end Decimal

deriving instance DecidableEq for Except

section Helpers

theorem wad_pos : 0 < WAD := by norm_num [WAD]

theorem checkedAdd_of_lt {a b : Nat} (h : a + b < U192.size) :
    U192.checkedAdd a b = some (a + b) := if_pos h

theorem checkedAdd_of_ge {a b : Nat} (h : U192.size ≤ a + b) :
    U192.checkedAdd a b = none := if_neg (by omega)

theorem checkedSub_of_le {a b : Nat} (h : b ≤ a) :
    U192.checkedSub a b = some (a - b) := if_pos h

theorem checkedSub_of_gt {a b : Nat} (h : a < b) :
    U192.checkedSub a b = none := if_neg (by omega)

theorem checkedMul_of_lt {a b : Nat} (h : a * b < U192.size) :
    U192.checkedMul a b = some (a * b) := if_pos h

theorem checkedMul_of_ge {a b : Nat} (h : U192.size ≤ a * b) :
    U192.checkedMul a b = none := if_neg (by omega)

theorem checkedDiv_of_ne {a b : Nat} (h : b ≠ 0) :
    U192.checkedDiv a b = some (a / b) := if_neg h

theorem checkedDiv_zero (a : Nat) : U192.checkedDiv a 0 = none := if_pos rfl

theorem checkedDiv_wad (a : Nat) : U192.checkedDiv a WAD = some (a / WAD) :=
  checkedDiv_of_ne (by norm_num [WAD])

end Helpers

/-- Claim C7: `Decimal::from(3u64).try_div(Decimal::from(2u64))` succeeds
with raw value `1.5 × 10^18`; rounding that result gives `Ok(2)`, flooring
gives `Ok(1)`, ceiling gives `Ok(2)`. -/
theorem c7_three_halves_scenario :
    Decimal.from_u64 3 = some ⟨WAD * 3⟩ ∧
    Decimal.from_u64 2 = some ⟨WAD * 2⟩ ∧
    Decimal.try_div_decimal ⟨WAD * 3⟩ ⟨WAD * 2⟩ =
      .ok (Decimal.from_scaled_val (15 * 10 ^ 17)) ∧
    Decimal.try_round_u64 (Decimal.from_scaled_val (15 * 10 ^ 17)) = .ok 2 ∧
    Decimal.try_floor_u64 (Decimal.from_scaled_val (15 * 10 ^ 17)) = .ok 1 ∧
    Decimal.try_ceil_u64 (Decimal.from_scaled_val (15 * 10 ^ 17)) = .ok 2 := by
  refine ⟨rfl, rfl, rfl, rfl, rfl, rfl⟩

/-- Claim C1 (evaluation at the failing input): the code maps the
`checked_sub` underflow in `try_sub` to `MathError::MulOverflow`
(decimal.rs line 147), so `Decimal::zero().try_sub(Decimal::one())` fails
with `MulOverflow`, not the `SubUnderflow` kind the claim requires; the
subtraction-underflow kind `SubUnderflow` exists in `error.rs` and is what
the documentation intends for this path. -/
theorem c1_try_sub_underflow_yields_mul_overflow :
    Decimal.try_sub Decimal.zero Decimal.one = .error .MulOverflow ∧
    Decimal.try_sub Decimal.zero Decimal.one ≠ .error .SubUnderflow := by
  refine ⟨rfl, by decide⟩

/-- Claim C2 (counterexample): `Decimal::from(u64::MAX)` succeeds with raw
value `(2^64 − 1) · W`, but multiplying that Decimal by itself fails with
`MulOverflow`: the intermediate raw product `((2^64 − 1) · W)^2` needs about
248 bits and does not fit the 192-bit word, contradicting the claim that the
product returns `Ok`. -/
theorem c2_u64_max_square_counterexample :
    Decimal.from_u64 (2 ^ 64 - 1) = some ⟨WAD * (2 ^ 64 - 1)⟩ ∧
    Decimal.try_mul_decimal ⟨WAD * (2 ^ 64 - 1)⟩ ⟨WAD * (2 ^ 64 - 1)⟩ =
      .error .MulOverflow := by
  refine ⟨rfl, rfl⟩

/-- Claim C2 (amended): `Decimal::from(u64::MAX).try_mul(Decimal::from(u64::MAX))`
fails with `MulOverflow` — the 192-bit width cannot hold the WAD-scaled raw
product of two full-range u64 values; the width margin does cover the product
value itself, so multiplying `Decimal::from(u64::MAX)` by the unscaled
integer `u64::MAX` succeeds with raw value `(2^64 − 1)^2 · W`. -/
theorem c2_amended_mul_overflow_at_u64_max :
    Decimal.try_mul_decimal ⟨WAD * (2 ^ 64 - 1)⟩ ⟨WAD * (2 ^ 64 - 1)⟩ =
      .error .MulOverflow ∧
    Decimal.try_mul_u64 ⟨WAD * (2 ^ 64 - 1)⟩ (2 ^ 64 - 1) =
      .ok ⟨WAD * (2 ^ 64 - 1) * (2 ^ 64 - 1)⟩ := by
  refine ⟨rfl, rfl⟩

/-- Claim C8: for every `u64` value `v` and every `u128` value `v`,
`Decimal::from(v)` yields raw value `v · W`; the widening multiply by
`W = 10^18` stays strictly below `2^192` across the whole input range, so
the `uint` multiply never overflows (never panics). -/
theorem c8_from_int_never_overflows (v : Nat) :
    (v < 2 ^ 64 → WAD * v < U192.size ∧ Decimal.from_u64 v = some ⟨WAD * v⟩) ∧
    (v < 2 ^ 128 → WAD * v < U192.size ∧ Decimal.from_u128 v = some ⟨WAD * v⟩) := by
  have h64 : ∀ w : Nat, w < 2 ^ 128 → WAD * w < U192.size := by
    intro w hw
    calc WAD * w ≤ WAD * (2 ^ 128 - 1) := Nat.mul_le_mul_left WAD (by omega)
    _ < U192.size := by norm_num [WAD, U192.size]
  constructor
  · intro hv
    have hb : WAD * v < U192.size := h64 v (by omega)
    exact ⟨hb, by simp [Decimal.from_u64, Decimal.wad, hb]⟩
  · intro hv
    have hb : WAD * v < U192.size := h64 v hv
    exact ⟨hb, by simp [Decimal.from_u128, Decimal.wad, hb]⟩

/-- Witness for C8 at `v = 2^64 − 1` (u64 range) and the same value in the
u128 range: both conversions succeed with raw value `v · W`. -/
theorem c8_witness :
    (WAD * (2 ^ 64 - 1) < U192.size ∧
      Decimal.from_u64 (2 ^ 64 - 1) = some ⟨WAD * (2 ^ 64 - 1)⟩) ∧
    (WAD * (2 ^ 64 - 1) < U192.size ∧
      Decimal.from_u128 (2 ^ 64 - 1) = some ⟨WAD * (2 ^ 64 - 1)⟩) :=
  ⟨(c8_from_int_never_overflows (2 ^ 64 - 1)).1 (by norm_num),
   (c8_from_int_never_overflows (2 ^ 64 - 1)).2 (by norm_num)⟩

/-- Claim C3: for every `u64` value `n`, `Decimal::from(n)` has raw value
`n · W`, and flooring, ceiling and rounding it all return `Ok(n)`:
integers round-trip exactly under all three rounding modes. -/
theorem c3_u64_round_trip (n : Nat) (h : n < 2 ^ 64) :
    Decimal.from_u64 n = some ⟨WAD * n⟩ ∧
    Decimal.try_floor_u64 ⟨WAD * n⟩ = .ok n ∧
    Decimal.try_ceil_u64 ⟨WAD * n⟩ = .ok n ∧
    Decimal.try_round_u64 ⟨WAD * n⟩ = .ok n := by
  have hbound : WAD * n ≤ WAD * (2 ^ 64 - 1) := Nat.mul_le_mul_left WAD (by omega)
  have hlit : WAD * (2 ^ 64 - 1) + WAD < U192.size := by norm_num [WAD, U192.size]
  have hwp := wad_pos
  have hh : HALF_WAD < WAD := by norm_num [HALF_WAD, WAD]
  have hb : WAD * n < U192.size := by omega
  have hdiv : WAD * n / WAD = n := Nat.mul_div_cancel_left n wad_pos
  refine ⟨by simp [Decimal.from_u64, Decimal.wad, hb], ?_, ?_, ?_⟩
  · rw [Decimal.try_floor_u64]
    simp only [Decimal.wad, checkedDiv_wad, hdiv]
    rw [if_pos h]
  · rw [Decimal.try_ceil_u64]
    have h1 : U192.checkedSub WAD 1 = some (WAD - 1) := checkedSub_of_le (by omega)
    have h2 : U192.checkedAdd (WAD - 1) (WAD * n) = some (WAD - 1 + WAD * n) :=
      checkedAdd_of_lt (by omega)
    have h3 : (WAD - 1 + WAD * n) / WAD = n := by
      rw [Nat.add_mul_div_left _ _ wad_pos, Nat.div_eq_of_lt (by omega)]
      omega
    simp only [Decimal.wad, h1, h2, checkedDiv_wad, h3]
    rw [if_pos h]
  · rw [Decimal.try_round_u64]
    have h2 : U192.checkedAdd HALF_WAD (WAD * n) = some (HALF_WAD + WAD * n) :=
      checkedAdd_of_lt (by omega)
    have h3 : (HALF_WAD + WAD * n) / WAD = n := by
      rw [Nat.add_mul_div_left _ _ wad_pos, Nat.div_eq_of_lt (by omega)]
      omega
    simp only [Decimal.wad, Decimal.half_wad, h2, checkedDiv_wad, h3]
    rw [if_pos h]

/-- Witness for C3 at `n = 3`. -/
theorem c3_witness :
    Decimal.from_u64 3 = some ⟨WAD * 3⟩ ∧
    Decimal.try_floor_u64 ⟨WAD * 3⟩ = .ok 3 ∧
    Decimal.try_ceil_u64 ⟨WAD * 3⟩ = .ok 3 ∧
    Decimal.try_round_u64 ⟨WAD * 3⟩ = .ok 3 :=
  c3_u64_round_trip 3 (by norm_num)

/-- Claim C5 (counterexample): `Decimal::from(10^22 u128)` succeeds with raw
value `10^40`, but dividing it by `Decimal::zero()` fails with `MulOverflow`
— the pre-scaling multiply `10^40 · W = 10^58` overflows the 192-bit word
before the zero divisor is ever examined — contradicting the claim that
dividing by a zero-valued Decimal always yields `DividedByZero`. -/
theorem c5_div_zero_counterexample :
    Decimal.from_u128 (10 ^ 22) = some ⟨WAD * 10 ^ 22⟩ ∧
    Decimal.try_div_decimal ⟨WAD * 10 ^ 22⟩ Decimal.zero = .error .MulOverflow := by
  refine ⟨rfl, rfl⟩

/-- Claim C5 (amended): dividing by a zero-valued operand always fails and
never yields a sentinel value: `try_div(0u64)` fails `DividedByZero` for
every lhs; `try_div(Decimal::zero())` fails `DividedByZero` whenever the
pre-scaling multiply `lhs.raw · W` fits in 192 bits, and otherwise fails
`MulOverflow` (raised before the divisor is examined). -/
theorem c5_amended_div_zero_always_errors (d : Decimal) :
    Decimal.try_div_u64 d 0 = .error .DividedByZero ∧
    (d.raw * WAD < U192.size →
      Decimal.try_div_decimal d Decimal.zero = .error .DividedByZero) ∧
    (U192.size ≤ d.raw * WAD →
      Decimal.try_div_decimal d Decimal.zero = .error .MulOverflow) := by
  refine ⟨?_, ?_, ?_⟩
  · rw [Decimal.try_div_u64, checkedDiv_zero]
  · intro hlt
    rw [Decimal.try_div_decimal]
    simp only [Decimal.wad, checkedMul_of_lt hlt, Decimal.zero, checkedDiv_zero]
  · intro hge
    rw [Decimal.try_div_decimal]
    simp only [Decimal.wad, checkedMul_of_ge hge]

/-- Witness for C5 (amended) at `lhs = Decimal::one()`: both division
forms fail with `DividedByZero`. -/
theorem c5_amended_witness :
    Decimal.try_div_u64 Decimal.one 0 = .error .DividedByZero ∧
    Decimal.try_div_decimal Decimal.one Decimal.zero = .error .DividedByZero :=
  ⟨(c5_amended_div_zero_always_errors Decimal.one).1,
   (c5_amended_div_zero_always_errors Decimal.one).2.1 (by norm_num [Decimal.one, Decimal.wad, WAD, U192.size])⟩

/-- Claim C6: `try_round_u64` computes `floor((raw + HALF_WAD) / W)`:
it fails `AddOverflow` exactly when `raw + HALF_WAD` overflows the 192-bit
width; otherwise it returns the quotient when it fits in 64 bits and fails
`UnableToRoundU64` when it does not; the `DividedByZero` path is
unreachable since `W` is a nonzero constant. -/
theorem c6_try_round_spec (d : Decimal) (h : d.raw < U192.size) :
    (Decimal.try_round_u64 d = .error .AddOverflow ↔
      U192.size ≤ HALF_WAD + d.raw) ∧
    (HALF_WAD + d.raw < U192.size →
      Decimal.try_round_u64 d =
        if (HALF_WAD + d.raw) / WAD < 2 ^ 64
        then .ok ((HALF_WAD + d.raw) / WAD)
        else .error .UnableToRoundU64) ∧
    Decimal.try_round_u64 d ≠ .error .DividedByZero := by
  by_cases hadd : HALF_WAD + d.raw < U192.size
  · have hrw : Decimal.try_round_u64 d =
        if (HALF_WAD + d.raw) / WAD < 2 ^ 64
        then .ok ((HALF_WAD + d.raw) / WAD)
        else .error .UnableToRoundU64 := by
      rw [Decimal.try_round_u64]
      simp only [Decimal.half_wad, Decimal.wad, checkedAdd_of_lt hadd, checkedDiv_wad]
    refine ⟨?_, fun _ => hrw, ?_⟩
    · rw [hrw]
      constructor
      · intro hcontra
        split at hcontra <;> simp_all
      · omega
    · rw [hrw]
      split <;> simp
  · have hrw : Decimal.try_round_u64 d = .error .AddOverflow := by
      rw [Decimal.try_round_u64]
      simp only [Decimal.half_wad, @checkedAdd_of_ge HALF_WAD d.raw (by omega)]
    refine ⟨by simp [hrw]; omega, fun hc => absurd hc hadd, by simp [hrw]⟩

/-- Witness for C6 at raw value `5 · 10^17` (true value 0.5, which rounds
half-up to 1) and at the all-ones raw value (where the half-wad addition
overflows). -/
theorem c6_witness :
    Decimal.try_round_u64 ⟨5 * 10 ^ 17⟩ = .ok 1 ∧
    Decimal.try_round_u64 ⟨U192.size - 1⟩ = .error .AddOverflow := by
  constructor
  · have h := (c6_try_round_spec ⟨5 * 10 ^ 17⟩ (by norm_num [U192.size])).2.1
      (by norm_num [HALF_WAD, WAD, U192.size])
    rw [h]
    norm_num [HALF_WAD, WAD]
  · have h := (c6_try_round_spec ⟨U192.size - 1⟩ (by norm_num [U192.size])).1
    rw [h]
    norm_num [HALF_WAD, WAD, U192.size]

theorem leBytes_length (k : Nat) : ∀ n, (leBytes k n).length = k := by
  induction k with
  | zero => intro n; rfl
  | succ k ih => intro n; simp [leBytes, ih]

theorem leBytes_mem_lt (k : Nat) : ∀ n, ∀ b ∈ leBytes k n, b < 256 := by
  induction k with
  | zero => intro n b hb; simp [leBytes] at hb
  | succ k ih =>
    intro n b hb
    rcases List.mem_cons.mp hb with h | h
    · subst h; exact Nat.mod_lt _ (by norm_num)
    · exact ih (n / 256) b h

theorem leDecode_leBytes (k : Nat) : ∀ n, leDecode (leBytes k n) = n % 256 ^ k := by
  induction k with
  | zero => intro n; simp [leBytes, leDecode, Nat.mod_one]
  | succ k ih =>
    intro n
    have hq : n / 256 % 256 ^ k < 256 ^ k := Nat.mod_lt _ (pow_pos (by norm_num) k)
    have hr : n % 256 < 256 := Nat.mod_lt _ (by norm_num)
    have hsum : n % 256 + 256 * (n / 256 % 256 ^ k) < 256 * 256 ^ k := by omega
    have hsplit : n = n % 256 + 256 * (n / 256 % 256 ^ k) +
        256 * 256 ^ k * (n / 256 / 256 ^ k) := by
      conv_lhs => rw [← Nat.div_add_mod n 256, ← Nat.div_add_mod (n / 256) (256 ^ k)]
      ring
    calc leDecode (leBytes (k + 1) n)
        = n % 256 + 256 * (n / 256 % 256 ^ k) := by simp [leBytes, leDecode, ih]
      _ = (n % 256 + 256 * (n / 256 % 256 ^ k)) % (256 * 256 ^ k) :=
          (Nat.mod_eq_of_lt hsum).symm
      _ = (n % 256 + 256 * (n / 256 % 256 ^ k) +
            256 * 256 ^ k * (n / 256 / 256 ^ k)) % (256 * 256 ^ k) := by
          rw [Nat.add_mul_mod_self_left]
      _ = n % (256 * 256 ^ k) := by rw [← hsplit]
      _ = n % 256 ^ (k + 1) := by ring_nf

theorem leDecode_lt (bs : List Nat) (h : ∀ b ∈ bs, b < 256) :
    leDecode bs < 256 ^ bs.length := by
  induction bs with
  | nil => simp [leDecode]
  | cons b bs ih =>
    have hb : b < 256 := h b (by simp)
    have htail : leDecode bs < 256 ^ bs.length := ih (fun x hx => h x (by simp [hx]))
    simp only [leDecode, List.length_cons, pow_succ]
    have := htail
    nlinarith [htail, hb]

theorem leBytes_getD (k : Nat) : ∀ n i, i < k →
    (leBytes k n).getD i 0 = n / 256 ^ i % 256 := by
  induction k with
  | zero => intro n i hi; omega
  | succ k ih =>
    intro n i hi
    cases i with
    | zero => simp [leBytes]
    | succ i =>
      have := ih (n / 256) i (by omega)
      simp only [leBytes, List.getD_cons_succ, this, Nat.div_div_eq_div_mul]
      congr 1
      rw [pow_succ]
      ring_nf

/-- Claim C4: for every 128-bit raw value `r`, `pack_into_slice` of
`from_scaled_val(r)` produces exactly the 16 little-endian base-256 bytes
of `r` (byte `i` is `r / 256^i % 256`, so the most significant byte sits
at index 15), `unpack_from_slice` of those bytes reproduces
`from_scaled_val(r)`, and packing is defined exactly when the Decimal's
raw value fits in 128 bits. -/
theorem c4_codec_round_trip (r : Nat) (h : r < 2 ^ 128) :
    Decimal.pack_into_slice (Decimal.from_scaled_val r) = some (leBytes 16 r) ∧
    (leBytes 16 r).length = 16 ∧
    (∀ i, i < 16 → (leBytes 16 r).getD i 0 = r / 256 ^ i % 256) ∧
    Decimal.unpack_from_slice (leBytes 16 r) = .ok (Decimal.from_scaled_val r) ∧
    (∀ d : Decimal, (Decimal.pack_into_slice d).isSome ↔ d.raw < 2 ^ 128) := by
  refine ⟨?_, leBytes_length 16 r, fun i hi => leBytes_getD 16 r i hi, ?_, ?_⟩
  · have hts : (Decimal.from_scaled_val r).to_scaled_val = .ok r := by
      rw [Decimal.from_scaled_val, Decimal.to_scaled_val]
      exact if_pos h
    rw [Decimal.pack_into_slice, hts]
  · rw [Decimal.unpack_from_slice]
    have hlen : (leBytes 16 r).length ≤ 16 := le_of_eq (leBytes_length 16 r)
    rw [List.take_of_length_le hlen, leDecode_leBytes 16 r,
      Nat.mod_eq_of_lt (by norm_num at h ⊢; omega)]
  · intro d
    rw [Decimal.pack_into_slice, Decimal.to_scaled_val]
    by_cases hd : d.raw < 2 ^ 128
    · rw [if_pos hd]
      simpa using hd
    · rw [if_neg hd]
      simpa using hd

/-- Witness for C4 at `r = 300` (bytes `[44, 1, 0, …, 0]`). -/
theorem c4_witness :
    Decimal.pack_into_slice (Decimal.from_scaled_val 300) = some (leBytes 16 300) ∧
    (leBytes 16 300).length = 16 ∧
    (∀ i, i < 16 → (leBytes 16 300).getD i 0 = 300 / 256 ^ i % 256) ∧
    Decimal.unpack_from_slice (leBytes 16 300) = .ok (Decimal.from_scaled_val 300) ∧
    (∀ d : Decimal, (Decimal.pack_into_slice d).isSome ↔ d.raw < 2 ^ 128) :=
  c4_codec_round_trip 300 (by norm_num)

/-- Claim C10: decoding is total on 16-byte inputs — `unpack_from_slice`
always returns `Ok`, namely `from_scaled_val` of the little-endian `u128`
read from the bytes, and that value always fits in 128 bits, so every
16-byte string is a valid encoding of some Decimal. -/
theorem c10_unpack_total (src : List Nat) (hlen : src.length = 16)
    (hbytes : ∀ b ∈ src, b < 256) :
    Decimal.unpack_from_slice src = .ok (Decimal.from_scaled_val (leDecode src)) ∧
    leDecode src < 2 ^ 128 := by
  constructor
  · rw [Decimal.unpack_from_slice, List.take_of_length_le (le_of_eq hlen)]
  · have := leDecode_lt src hbytes
    rw [hlen] at this
    norm_num at this ⊢
    omega

/-- Witness for C10 on the 16-byte input `[1, 0, …, 0]`. -/
theorem c10_witness :
    Decimal.unpack_from_slice (1 :: List.replicate 15 0) =
      .ok (Decimal.from_scaled_val (leDecode (1 :: List.replicate 15 0))) ∧
    leDecode (1 :: List.replicate 15 0) < 2 ^ 128 :=
  c10_unpack_total (1 :: List.replicate 15 0) (by simp) (by decide)

/-- Claim C9: the Display rendering of a Decimal always contains a decimal
point followed by exactly `SCALE = 18` fractional digit characters (no
trailing-zero trimming): when the raw value's digit count is at most 18 the
output is `"0."` followed by the raw digits zero-padded to 18, otherwise a
point is inserted 18 digits from the end of the raw digit string; in
particular `Decimal::from_percent(50)` displays as
`"0.500000000000000000"`. -/
theorem c9_display_eighteen_fraction_digits (d : Decimal) :
    (∃ pre post : List Char,
      Decimal.display_chars d = pre ++ '.' :: post ∧
      post.length = SCALE ∧ pre ≠ []) ∧
    ((Nat.repr d.raw).data.length ≤ SCALE →
      Decimal.display_chars d =
        '0' :: '.' :: (List.replicate (SCALE - (Nat.repr d.raw).data.length) '0' ++
          (Nat.repr d.raw).data)) ∧
    (SCALE < (Nat.repr d.raw).data.length →
      Decimal.display_chars d =
        (Nat.repr d.raw).data.take ((Nat.repr d.raw).data.length - SCALE) ++
          '.' :: (Nat.repr d.raw).data.drop ((Nat.repr d.raw).data.length - SCALE)) ∧
    Decimal.display (Decimal.from_percent 50) = "0.500000000000000000" := by
  by_cases hlen : (Nat.repr d.raw).data.length ≤ SCALE
  · have hrw : Decimal.display_chars d =
        '0' :: '.' :: (List.replicate (SCALE - (Nat.repr d.raw).data.length) '0' ++
          (Nat.repr d.raw).data) := by
      rw [Decimal.display_chars]
      exact if_pos hlen
    refine ⟨⟨['0'],
      List.replicate (SCALE - (Nat.repr d.raw).data.length) '0' ++ (Nat.repr d.raw).data,
      by rw [hrw]; simp, by simp only [List.length_append, List.length_replicate]; omega,
      by simp⟩,
      fun _ => hrw, fun hc => absurd hc (by omega), by decide⟩
  · have hgt : SCALE < (Nat.repr d.raw).data.length := by omega
    have hrw : Decimal.display_chars d =
        (Nat.repr d.raw).data.take ((Nat.repr d.raw).data.length - SCALE) ++
          '.' :: (Nat.repr d.raw).data.drop ((Nat.repr d.raw).data.length - SCALE) := by
      rw [Decimal.display_chars]
      exact if_neg hlen
    refine ⟨⟨(Nat.repr d.raw).data.take ((Nat.repr d.raw).data.length - SCALE),
      (Nat.repr d.raw).data.drop ((Nat.repr d.raw).data.length - SCALE),
      hrw, by simp only [List.length_drop]; omega, ?_⟩,
      fun hc => absurd hc hlen, fun _ => hrw, by decide⟩
    have hpos : 0 < ((Nat.repr d.raw).data.take
        ((Nat.repr d.raw).data.length - SCALE)).length := by
      simp only [List.length_take]
      omega
    exact List.length_pos.mp hpos

/-- Witness for C9 at `d = Decimal::zero()` (raw digit string `"0"`, one
digit, so the padded branch applies). -/
theorem c9_witness :
    Decimal.display_chars Decimal.zero =
      '0' :: '.' :: (List.replicate (SCALE - (Nat.repr (Decimal.zero).raw).data.length) '0' ++
        (Nat.repr (Decimal.zero).raw).data) :=
  (c9_display_eighteen_fraction_digits Decimal.zero).2.1 (by decide)
